import Mathlib

/-!
Formal verification of the esx-boot repository against its specification.

The development shallowly embeds three parts of the code base:

* `Tmfifo` — the BlueField TMFIFO virtual console driver
  (src/libuart/arm64/tmfifo.c).  MMIO is modelled explicitly: register
  reads are drawn from an oracle (the SCRATCHPAD1 value and a sequence of
  TILE_TO_HOST_STATUS values, one per poll), and the function's effect is
  the ordered list of (register, value) 64-bit writes it performs.
* `Syslog` — the logging hub (log.c): the console subscription table and
  the `Log` / `syslog_vformat` message path.  The message buffer is
  modelled as a total function `Nat → Char`, and `snprintf`/`vsnprintf`
  as truncating writes of the string they would produce.
* `Elf2Efi` — the ELF-to-PE32+ converter.  Its C source (elf2efi.c) is
  not part of the material under verification (only its Makefile is), so
  the converter is modelled from the specification text, definition by
  definition; each such definition carries a `Modelled from the spec:`
  doc comment.
-/

namespace Tmfifo

/-- Register offsets from tmfifo.c. -/
def TMFIFO_MSG_CONSOLE : Nat := 3

def TILE_TO_HOST_DATA : Nat := 0xa40

def TILE_TO_HOST_STATUS : Nat := 0xa48

def SCRATCHPAD1 : Nat := 0xc20

def FIFO_LENGTH : Nat := 256

/-- The constant TX header word: a `tmfifo_msg_header_t` union with
`type = TMFIFO_MSG_CONSOLE` at byte 0 and `len_lo = 1` at byte 2, read
as a little-endian (arm64) `uint64_t`. -/
def tx_header_data : Nat := TMFIFO_MSG_CONSOLE + 0x10000 * 1

/-- `tmfifo_connected`: the remote end is present iff SCRATCHPAD1 reads
nonzero.  `scratch` is the value `io_read64(&dev->io, SCRATCHPAD1)`
returns. -/
def tmfifo_connected (scratch : Nat) : Bool :=
  scratch != 0

/-- `tmfifo_full`: the TX FIFO is full iff the status register reads more
than `FIFO_LENGTH - 2` (room for fewer than two more packets). -/
def tmfifo_full (status : Nat) : Bool :=
  status > FIFO_LENGTH - 2

/-- The polling loop of `tmfifo_putc`: `fuel` counts the remaining
`timeout` iterations, `i` is the index of the next status read in the
oracle `st`.  On observing a non-full FIFO it performs the two data
writes and stops; when the fuel runs out it performs none. -/
def putc_loop (st : Nat → Nat) (c : Nat) : Nat → Nat → List (Nat × Nat)
  | 0, _ => []
  | fuel + 1, i =>
    if tmfifo_full (st i) then
      putc_loop st c fuel (i + 1)
    else
      [(TILE_TO_HOST_DATA, tx_header_data), (TILE_TO_HOST_DATA, c)]

/-- `tmfifo_putc`: returns the ordered list of `io_write64` effects.
`scratch` is the SCRATCHPAD1 reading, `st` the sequence of
TILE_TO_HOST_STATUS readings, `c` the character (widened to 64 bits). -/
def tmfifo_putc (scratch : Nat) (st : Nat → Nat) (c : Nat) : List (Nat × Nat) :=
  if ¬ tmfifo_connected scratch then []
  else putc_loop st c 0xffff 0

end Tmfifo

namespace Syslog

def CONSOLES_MAX_NR : Nat := 2

def LOG_MAX_LEN : Nat := 1024

def SYSLOG_EMPTY_MSG_SIZE : Nat := 5

/-- syslog severity levels (syslog.h): LOG_EMERG = 0 … LOG_DEBUG = 7. -/
def LOG_EMERG : Int := 0

def LOG_INFO : Int := 6

def LOG_DEBUG : Int := 7

/-- `IS_SYSLOG_LEVEL(x)`: x lies in the syslog severity range 0..7. -/
def IS_SYSLOG_LEVEL (x : Int) : Bool :=
  LOG_EMERG ≤ x && x ≤ LOG_DEBUG

/-- One entry of the console table (`console_t`).  A callback
(`log_callback_t`, a function pointer) is modelled by an abstract
identifier; `none` models the NULL pointer. -/
structure console_t where
  notify : Option Nat
  maxlevel : Int
deriving DecidableEq, Repr

/-- `log_unsubscribe`: clear the first slot whose callback equals `cb`
(the C loop returns after the first match). -/
def log_unsubscribe (cb : Nat) : List console_t → List console_t
  | [] => []
  | c :: cs =>
    if c.notify = some cb then ⟨none, 0⟩ :: cs
    else c :: log_unsubscribe cb cs

/-- Status codes returned by `log_subscribe`. -/
inductive Status where
  | success
  | out_of_resources
deriving DecidableEq, Repr

/-- The slot-claiming loop of `log_subscribe`: install `cb` with level
`ml` in the first slot whose callback is NULL; `none` when every slot is
occupied. -/
def subscribe_find (cb : Nat) (ml : Int) : List console_t → Option (List console_t)
  | [] => none
  | c :: cs =>
    if c.notify = none then some (⟨some cb, ml⟩ :: cs)
    else (subscribe_find cb ml cs).map (c :: ·)

/-- `log_subscribe`: clamp the level, remove any existing registration of
`cb`, then claim the first free slot; `out_of_resources` if none. -/
def log_subscribe (cb : Nat) (ml : Int) (cs : List console_t) :
    Status × List console_t :=
  let ml' := if IS_SYSLOG_LEVEL ml then ml else LOG_DEBUG
  let cs1 := log_unsubscribe cb cs
  match subscribe_find cb ml' cs1 with
  | some cs2 => (.success, cs2)
  | none => (.out_of_resources, cs1)

/-- Number of slots registered to callback `x`. -/
def occ (cs : List console_t) (x : Nat) : Nat :=
  cs.countP (fun c => c.notify = some x)

/-- Number of free (NULL) slots. -/
def freeSlots (cs : List console_t) : Nat :=
  cs.countP (fun c => c.notify = none)

/-- The table invariant: no callback is registered in two slots. -/
def tableOk (cs : List console_t) : Prop :=
  (cs.filterMap (fun c => c.notify)).Nodup

instance : DecidablePred tableOk := fun cs => by
  unfold tableOk; infer_instance

/-- The level actually stored by `log_subscribe`. -/
def clampLevel (ml : Int) : Int :=
  if IS_SYSLOG_LEVEL ml then ml else LOG_DEBUG

/-- The NUL character. -/
def NUL : Char := Char.ofNat 0

/-- Write the characters `s` into buffer `buf` starting at position
`off`; positions outside `[off, off + s.length)` keep their old value. -/
def writeBuf (buf : Nat → Char) (off : Nat) (s : List Char) : Nat → Char :=
  fun i => if off ≤ i then s.getD (i - off) (buf i) else buf i

/-- Model of `snprintf(msgbuf + off, cap, …)` whose untruncated output is
`s` (all uses have `cap ≥ 1`): writes `min s.length (cap - 1)` characters
plus a terminating NUL, and returns the untruncated length. -/
def snprintf_model (buf : Nat → Char) (off cap : Nat) (s : List Char) :
    (Nat → Char) × Nat :=
  (writeBuf buf off (s.take (cap - 1) ++ [NUL]), s.length)

/-- The truncation/newline core of `syslog_vformat`, after the initial
size and level guard: header write, body write, `len` bookkeeping with
`MIN`, and the trailing-newline fix-up. -/
def vformat_core (buf : Nat → Char) (buflen : Nat) (hdr body : List Char) :
    (Nat → Char) × Nat :=
  let r1 := snprintf_model buf 0 buflen hdr
  let len1 := min r1.2 (buflen - 1)
  let r2 :=
    if len1 + 1 ≤ buflen then
      let s2 := snprintf_model r1.1 len1 (buflen - len1) body
      (s2.1, len1 + min s2.2 (buflen - len1 - 1))
    else (r1.1, len1)
  if r2.1 (r2.2 - 1) ≠ '\n' then
    let len3 := if r2.2 + 1 = buflen then r2.2 - 1 else r2.2
    (writeBuf r2.1 len3 ['\n', NUL], len3 + 1)
  else r2

/-- `syslog_vformat`: the "<l>" ++ pfx header followed by the message
body (`body` stands for the untruncated `vsnprintf` output of the format
string and arguments).  Returns the buffer after the writes, and the
length returned by the C function. -/
def syslog_vformat (buf : Nat → Char) (buflen : Nat) (level : Int)
    (pfx : List Char) (body : List Char) : (Nat → Char) × Nat :=
  if buflen < SYSLOG_EMPTY_MSG_SIZE ∨ ¬ IS_SYSLOG_LEVEL level then (buf, 0)
  else vformat_core buf buflen
    ('<' :: Char.ofNat (48 + level.toNat) :: '>' :: pfx) body

/-- Default slot value used for out-of-range table reads. -/
def noConsole : console_t := ⟨none, 0⟩

/-- `Log`: clamp the severity, format the message with a NULL prefix, and
notify, in table order, every console whose slot is non-NULL and whose
maxlevel admits the severity.  Returns the final message buffer, the
formatted length, and the list of console indices invoked. -/
def Log (cs : List console_t) (buf : Nat → Char) (level : Int)
    (body : List Char) : (Nat → Char) × Nat × List Nat :=
  let lv := if IS_SYSLOG_LEVEL level then level else LOG_DEBUG
  let r := syslog_vformat buf LOG_MAX_LEN lv [] body
  if r.2 + 1 ≤ 1 then (r.1, r.2, [])
  else (r.1, r.2, (List.range cs.length).filter
    (fun i => (cs.getD i noConsole).notify ≠ none
      ∧ lv ≤ (cs.getD i noConsole).maxlevel))

end Syslog

namespace Elf2Efi

/-- Modelled from the spec: ELF relocation type codes of the supported
x86-64 target, grouped by behaviour: absolute 64-bit, absolute 32-bit
and PC-relative 32-bit are the supported set; thread-local-storage,
procedure-linkage-table and deferred-external (GOT) kinds are the
rejected classes. -/
inductive RelocType where
  | Abs64
  | Abs32
  | PcRel32
  | TlsRel
  | PltRel
  | GotRel
deriving DecidableEq, Repr

/-- Modelled from the spec: PE base-relocation fixup kinds used by the
architecture table: 64-bit rebase and 32-bit high/low rebase. -/
inductive FixupKind where
  | Dir64
  | HighLow
deriving DecidableEq, Repr

/-- Modelled from the spec: the supported relocation-type set. -/
def supportedReloc : RelocType → Bool
  | .Abs64 | .Abs32 | .PcRel32 => true
  | _ => false

/-- Modelled from the spec: absolute-address kinds, whose value depends
on the image load base and which therefore need a runtime
base-relocation entry; PC-relative or static kinds do not. -/
def needsRuntime : RelocType → Bool
  | .Abs64 | .Abs32 => true
  | _ => false

/-- Modelled from the spec: the architecture table: 64-bit absolute →
64-bit rebase; 32-bit absolute → 32-bit high/low rebase. -/
def fixupKindOf : RelocType → FixupKind
  | .Abs64 => .Dir64
  | _ => .HighLow

/-- Modelled from the spec: width in bytes of a fixup's target byte
range. -/
def relocWidth : RelocType → Nat
  | .Abs64 => 8
  | _ => 4

/-- Modelled from the spec: a relocation record {offset, symbol index,
type code, addend}; `off` is the in-section byte offset of the target
range. -/
structure Relocation where
  off : Nat
  symIdx : Nat
  rtype : RelocType
  addend : Nat
deriving DecidableEq, Repr

/-- Modelled from the spec: a section {flags, size, alignment, raw byte
view} with its per-section relocation list; the flags are the ELF
alloc/exec/write/no-file-bits combination the planner buckets by. -/
structure ElfSection where
  alloc : Bool
  exec : Bool
  write : Bool
  nobits : Bool
  size : Nat
  align : Nat
  bytes : List Nat
  relocs : List Relocation
deriving DecidableEq, Repr

def emptySec : ElfSection := ⟨false, false, false, false, 0, 1, [], []⟩

/-- Modelled from the spec: a symbol value as (owning section index,
in-section offset), an arena index into the image's sequences. -/
structure Symbol where
  sec : Nat
  off : Nat
deriving DecidableEq, Repr

/-- Modelled from the spec: the immutable in-memory ELF representation:
machine type, entry address (as section/offset), sections, symbols. -/
structure ElfImage where
  machine : Nat
  entry_sec : Nat
  entry_off : Nat
  sections : List ElfSection
  symbols : List Symbol
deriving DecidableEq, Repr

/-- Modelled from the spec: the error taxonomy. -/
inductive ConvError where
  | FormatError
  | TruncatedError
  | UnsupportedMachine
  | UnsupportedRelocation (ty : RelocType) (sec off : Nat)
  | MissingEntryPoint
  | ImageTooLarge
  | IoError
deriving DecidableEq, Repr

/-- The ELF machine type of the supported x86-64 target. -/
def EM_X86_64 : Nat := 62

/-- Round `n` up to a multiple of `a` (identity for `a ≤ 1`). -/
def alignUp (n a : Nat) : Nat :=
  if a ≤ 1 then n else (n + a - 1) / a * a

/-- Modelled from the spec: the four PE section buckets. -/
inductive Bucket where
  | code
  | rodata
  | data
  | bss
deriving DecidableEq, Repr

def allBuckets : List Bucket := [.code, .rodata, .data, .bss]

/-- Modelled from the spec: bucketing by ELF flag combination:
exec+read → code; write+read+no-file-bits → uninitialized data;
write+read → initialized data; read-only → read-only data; sections
that do not occupy runtime memory are dropped. -/
def classOf (s : ElfSection) : Option Bucket :=
  if ¬ s.alloc then none
  else if s.exec then some .code
  else if s.write && s.nobits then some .bss
  else if s.write then some .data
  else some .rodata

/-- The sections of bucket `b`, with their original indices, in file
order. -/
def bucketMembers (elf : ElfImage) (b : Bucket) : List (Nat × ElfSection) :=
  (elf.sections.enum).filter (fun p => classOf p.2 = some b)

/-- Modelled from the spec: in-bucket concatenation in file order with
alignment padding; returns the (original index, in-bucket offset) pairs
and the bucket's total virtual size. -/
def bucketPlace : Nat → List (Nat × ElfSection) → List (Nat × Nat) × Nat
  | off, [] => ([], off)
  | off, (i, s) :: rest =>
    let o := alignUp off s.align
    let r := bucketPlace (o + s.size) rest
    ((i, o) :: r.1, r.2)

def bucketVSize (elf : ElfImage) (b : Bucket) : Nat :=
  (bucketPlace 0 (bucketMembers elf b)).2

/-- Modelled from the spec: the non-empty layout buckets, which become
the emitted PE sections. -/
def nonEmptyBuckets (elf : ElfImage) : List Bucket :=
  allBuckets.filter (fun b => 0 < bucketVSize elf b)

def SECTION_ALIGN : Nat := 4096

def FILE_ALIGN : Nat := 512

def SIZE_OF_HEADERS : Nat := 1024

def IMAGE_BASE : Nat := 0x10000

def PAGE_SIZE : Nat := 4096

/-- One emitted PE section. -/
structure PeSection where
  bucket : Bucket
  rva : Nat
  vsize : Nat
  rawsize : Nat
  fileptr : Nat
deriving DecidableEq, Repr

/-- Modelled from the spec: RVAs are assigned starting at the aligned
end of the headers, advancing per bucket by its aligned total size;
file pointers start at the file-aligned header size and advance by the
aligned raw data size (zero for uninitialized data). -/
def layoutFold (elf : ElfImage) : List Bucket → Nat → Nat → List PeSection
  | [], _, _ => []
  | b :: rest, rva, fp =>
    let vs := bucketVSize elf b
    let raw := if b = Bucket.bss then 0 else alignUp vs FILE_ALIGN
    { bucket := b, rva := rva, vsize := vs, rawsize := raw, fileptr := fp } ::
      layoutFold elf rest (rva + alignUp vs SECTION_ALIGN) (fp + raw)

/-- End RVA after laying out the given buckets from `rva`. -/
def rvaEnd (elf : ElfImage) : List Bucket → Nat → Nat
  | [], rva => rva
  | b :: rest, rva =>
    rvaEnd elf rest (rva + alignUp (bucketVSize elf b) SECTION_ALIGN)

/-- The RVA at which bucket `b` is placed. -/
def bucketRVA (elf : ElfImage) (b : Bucket) : Nat :=
  rvaEnd elf ((nonEmptyBuckets elf).takeWhile (fun x => x ≠ b))
    (alignUp SIZE_OF_HEADERS SECTION_ALIGN)

/-- Modelled from the spec: the address map from (original section
index, in-section offset) to final RVA — here as the per-section base
RVA list; the map is `lookupRVA · + offset`. -/
def placements (elf : ElfImage) : List (Nat × Nat) :=
  (nonEmptyBuckets elf).flatMap (fun b =>
    ((bucketPlace 0 (bucketMembers elf b)).1).map
      (fun p => (p.1, bucketRVA elf b + p.2)))

def lookupRVA (elf : ElfImage) (i : Nat) : Option Nat :=
  (placements elf).lookup i

/-- Modelled from the spec: the planner output: emitted sections and the
declared image size (the sum of the aligned section sizes). -/
structure PeLayout where
  sections : List PeSection
  imageSize : Nat
deriving DecidableEq, Repr

/-- Modelled from the spec: the Section Layout Planner. -/
def plan (elf : ElfImage) : PeLayout :=
  let start := alignUp SIZE_OF_HEADERS SECTION_ALIGN
  { sections := layoutFold elf (nonEmptyBuckets elf) start
      (alignUp SIZE_OF_HEADERS FILE_ALIGN)
    imageSize := rvaEnd elf (nonEmptyBuckets elf) start - start }

/-- Modelled from the spec: first relocation whose type is outside the
supported set, as (type code, section index, in-section offset). -/
def findUnsupported (elf : ElfImage) : Option (RelocType × Nat × Nat) :=
  (elf.sections.enum).findSome? (fun p =>
    p.2.relocs.findSome? (fun r =>
      if supportedReloc r.rtype then none else some (r.rtype, p.1, r.off)))

/-- Two byte ranges (start, width) overlap. -/
def rangesOverlap (a b : Nat × Nat) : Bool :=
  a.1 < b.1 + b.2 && b.1 < a.1 + a.2

def hasOverlap : List (Nat × Nat) → Bool
  | [] => false
  | r :: rs => rs.any (rangesOverlap r) || hasOverlap rs

/-- The target byte ranges of a section's relocations. -/
def sectionRanges (s : ElfSection) : List (Nat × Nat) :=
  s.relocs.map (fun r => (r.off, relocWidth r.rtype))

/-- Modelled from the spec: overlapping relocation targets within the
same section (malformed input). -/
def anyOverlap (elf : ElfImage) : Bool :=
  elf.sections.any (fun s => hasOverlap (sectionRanges s))

/-- A relocation is resolvable when its section and its symbol's section
are in the address map. -/
def resolvable (elf : ElfImage) (i : Nat) (r : Relocation) : Bool :=
  (lookupRVA elf i).isSome &&
  (match elf.symbols[r.symIdx]? with
   | none => false
   | some sym => (lookupRVA elf sym.sec).isSome)

def allResolvable (elf : ElfImage) : Bool :=
  (elf.sections.enum).all (fun p => p.2.relocs.all (resolvable elf p.1))

/-- RVA of symbol `si` through the address map. -/
def symbolRVA (elf : ElfImage) (si : Nat) : Nat :=
  match elf.symbols[si]? with
  | none => 0
  | some sym => (lookupRVA elf sym.sec).getD 0 + sym.off

/-- Modelled from the spec: the fixup's target RVA computed via the
address map: `symbol_value + addend`. -/
def targetRVA (elf : ElfImage) (r : Relocation) : Nat :=
  symbolRVA elf r.symIdx + r.addend

/-- Modelled from the spec: the runtime base-relocation entry of an
absolute-address relocation, keyed by target RVA, with the architecture
fixup kind; `none` for PC-relative or already-resolved static kinds. -/
def entryOf (elf : ElfImage) (r : Relocation) : Option (Nat × FixupKind) :=
  if needsRuntime r.rtype then some (targetRVA elf r, fixupKindOf r.rtype)
  else none

def allEntries (elf : ElfImage) : List (Nat × FixupKind) :=
  elf.sections.flatMap (fun s => s.relocs.filterMap (entryOf elf))

/-- Modelled from the spec: a relocation block: page RVA plus the
ordered (in-page offset, fixup kind) entries. -/
structure RelocBlock where
  pageRVA : Nat
  entries : List (Nat × FixupKind)
deriving DecidableEq, Repr

def entryLE (a b : Nat × FixupKind) : Prop := a.1 ≤ b.1

instance : DecidableRel entryLE := fun a b => Nat.decLe a.1 b.1

instance : IsTotal (Nat × FixupKind) entryLE := ⟨fun a b => Nat.le_total a.1 b.1⟩

instance : IsTrans (Nat × FixupKind) entryLE := ⟨fun _ _ _ h1 h2 => Nat.le_trans h1 h2⟩

def sortEntries (es : List (Nat × FixupKind)) : List (Nat × FixupKind) :=
  List.insertionSort entryLE es

def blockEntries (sorted : List (Nat × FixupKind)) (p : Nat) :
    List (Nat × FixupKind) :=
  (sorted.filter (fun e => e.1 / PAGE_SIZE = p)).map
    (fun e => (e.1 % PAGE_SIZE, e.2))

/-- Modelled from the spec: entries grouped by containing 4 KiB page and
sorted ascending by in-page offset; empty blocks are omitted. -/
def mkBlocks (es : List (Nat × FixupKind)) : List RelocBlock :=
  let sorted := sortEntries es
  ((sorted.map (fun e => e.1 / PAGE_SIZE)).dedup).map
    (fun p => { pageRVA := p * PAGE_SIZE, entries := blockEntries sorted p })

/-- Little-endian byte encoding of `v` in `w` bytes. -/
def leBytesN : Nat → Nat → List Nat
  | 0, _ => []
  | w + 1, v => (v % 256) :: leBytesN w (v / 256)

/-- Write the bytes `bs` into `l` at offset `off`. -/
def writeBytes (l : List Nat) (off : Nat) (bs : List Nat) : List Nat :=
  l.take off ++ bs ++ l.drop (off + bs.length)

/-- Modelled from the spec: the static value folded into the destination
bytes: `symbol_value + addend` (made absolute with the image base for
absolute kinds), adjusted by `− fixup_address` for PC-relative kinds. -/
def staticValue (elf : ElfImage) (secRVA : Nat) (r : Relocation) : Int :=
  if needsRuntime r.rtype then ((IMAGE_BASE + targetRVA elf r : Nat) : Int)
  else (targetRVA elf r : Int) - ((secRVA + r.off : Nat) : Int)

def foldReloc (elf : ElfImage) (secRVA : Nat) (bytes : List Nat)
    (r : Relocation) : List Nat :=
  let w := relocWidth r.rtype
  let v := (staticValue elf secRVA r).emod ((2 : Int) ^ (8 * w))
  writeBytes bytes r.off (leBytesN w v.toNat)

/-- Modelled from the spec: unconditional constant folding of every
relocation into the working copy of its section's bytes. -/
def foldSection (elf : ElfImage) (i : Nat) (s : ElfSection) : List Nat :=
  s.relocs.foldl (foldReloc elf ((lookupRVA elf i).getD 0)) s.bytes

def foldAll (elf : ElfImage) : List (List Nat) :=
  (elf.sections.enum).map (fun p => foldSection elf p.1 p.2)

/-- The Relocation Translator's output: base-relocation blocks and the
folded working copies of the section bytes. -/
structure TransOut where
  blocks : List RelocBlock
  folded : List (List Nat)
deriving DecidableEq, Repr

/-- Modelled from the spec: the Relocation Translator: reject relocation
types outside the supported set with `UnsupportedRelocation` naming the
type code, section, and offset; reject overlapping relocation targets
within the same byte range as a `FormatError`; resolve every fixup
through the address map; fold static values; and build the runtime
base-relocation blocks. -/
def translate (elf : ElfImage) : Except ConvError TransOut :=
  match findUnsupported elf with
  | some u => .error (.UnsupportedRelocation u.1 u.2.1 u.2.2)
  | none =>
    if anyOverlap elf then .error .FormatError
    else if ¬ allResolvable elf then .error .FormatError
    else .ok { blocks := mkBlocks (allEntries elf), folded := foldAll elf }

/-- The translator's relocation blocks, when it succeeds. -/
def blocksOf (elf : ElfImage) : Option (List RelocBlock) :=
  match translate elf with
  | .ok t => some t.blocks
  | .error _ => none

/-- Modelled from the spec: number of source relocations requiring a
runtime fixup (absolute-address kinds). -/
def absRelocCount (elf : ElfImage) : Nat :=
  (elf.sections.map (fun s => s.relocs.countP (fun r => needsRuntime r.rtype))).sum

/-- Modelled from the spec: the Symbol & Entry Resolver: resolve the
entry through the address map; `MissingEntryPoint` when it falls outside
every emitted section. -/
def resolveEntry (elf : ElfImage) (pl : PeLayout) : Except ConvError Nat :=
  match lookupRVA elf elf.entry_sec with
  | none => .error .MissingEntryPoint
  | some rva =>
    let e := rva + elf.entry_off
    if pl.sections.any (fun s => s.rva ≤ e && e < s.rva + s.vsize) then .ok e
    else .error .MissingEntryPoint

def le16 (n : Nat) : List Nat := [n % 256, n / 256 % 256]

def le32 (n : Nat) : List Nat :=
  [n % 256, n / 256 % 256, n / 65536 % 256, n / 16777216 % 256]

def le64 (n : Nat) : List Nat :=
  le32 (n % 4294967296) ++ le32 (n / 4294967296)

/-- CLI arguments: the subsystem choice and debug stripping. -/
structure ConvArgs where
  subsystem : Nat
  stripDebug : Bool
deriving DecidableEq, Repr

/-- Modelled from the spec: the fixed-length part of the output that
precedes the 32-bit checksum field: the compatibility stub whose only
required content is the pointer to the real header, the "PE\x5c0\x5c0"
signature, the file header (machine type mapped from the ELF machine
type, section count, zero timestamp, executable and not
relocation-stripped), and the optional-header fields up to the
checksum. -/
def hdrPre (pl : PeLayout) (entry : Nat) : List Nat :=
  List.replicate 60 0 ++ le32 64
  ++ [80, 69, 0, 0]
  ++ le16 0x8664 ++ le16 pl.sections.length ++ le32 0 ++ le32 0 ++ le32 0
  ++ le16 240 ++ le16 0x0022
  ++ le16 0x20b ++ [0, 0]
  ++ le32 0 ++ le32 0 ++ le32 0
  ++ le32 entry ++ le32 0
  ++ le64 IMAGE_BASE
  ++ le32 SECTION_ALIGN ++ le32 FILE_ALIGN
  ++ le32 0 ++ le32 0 ++ le32 0 ++ le32 0
  ++ le32 (alignUp SIZE_OF_HEADERS SECTION_ALIGN + pl.imageSize)
  ++ le32 SIZE_OF_HEADERS

/-- One relocation block serialized: page RVA, block size, and the
16-bit (kind, in-page offset) entries. -/
def relocBlockBytes (b : RelocBlock) : List Nat :=
  le32 b.pageRVA ++ le32 (8 + 2 * b.entries.length)
  ++ b.entries.flatMap (fun e =>
      le16 ((if e.2 = FixupKind.Dir64 then 10 else 3) * 4096 + e.1))

/-- Modelled from the spec: the relocation table bytes; the block list
is explicitly terminated. -/
def relocTableBytes (bs : List RelocBlock) : List Nat :=
  bs.flatMap relocBlockBytes ++ List.replicate 8 0

def bucketNameBytes : Bucket → List Nat
  | .code => [46, 116, 101, 120, 116, 0, 0, 0]
  | .rodata => [46, 114, 111, 100, 97, 116, 97, 0]
  | .data => [46, 100, 97, 116, 97, 0, 0, 0]
  | .bss => [46, 98, 115, 115, 0, 0, 0, 0]

/-- Section characteristics flags for code/data/bss × read/write/exec. -/
def bucketChars : Bucket → Nat
  | .code => 0x60000020
  | .rodata => 0x40000040
  | .data => 0xC0000040
  | .bss => 0xC0000080

def sectionHeaderBytes (s : PeSection) : List Nat :=
  bucketNameBytes s.bucket ++ le32 s.vsize ++ le32 s.rva
  ++ le32 s.rawsize ++ le32 s.fileptr
  ++ le32 0 ++ le32 0 ++ le16 0 ++ le16 0 ++ le32 (bucketChars s.bucket)

/-- One bucket's raw data: members' folded bytes placed at their
in-bucket offsets over zero padding, truncated to the raw size. -/
def bucketData (elf : ElfImage) (folded : List (List Nat)) (b : Bucket)
    (raw : Nat) : List Nat :=
  (((bucketPlace 0 (bucketMembers elf b)).1).foldl
    (fun acc p => writeBytes acc p.2
      ((folded.getD p.1 []).take (elf.sections.getD p.1 emptySec).size))
    (List.replicate raw 0)).take raw

/-- Modelled from the spec: everything after the checksum field: the
remaining optional-header fields (subsystem supplied by configuration,
data-directory array referencing the base-relocation table), the
section header table, the section bytes padded to file alignment, and
the relocation table bytes. -/
def hdrPost (elf : ElfImage) (pl : PeLayout) (blocks : List RelocBlock)
    (folded : List (List Nat)) (args : ConvArgs) : List Nat :=
  le16 args.subsystem ++ le16 0x100
  ++ le64 0 ++ le64 0 ++ le64 0 ++ le64 0
  ++ le32 0 ++ le32 16
  ++ le32 0 ++ le32 0 ++ le32 0 ++ le32 0
  ++ le32 0 ++ le32 0 ++ le32 0 ++ le32 0
  ++ le32 0 ++ le32 0
  ++ le32 (alignUp SIZE_OF_HEADERS SECTION_ALIGN + pl.imageSize)
  ++ le32 (relocTableBytes blocks).length
  ++ (List.replicate 10 (le32 0 ++ le32 0)).flatten
  ++ pl.sections.flatMap sectionHeaderBytes
  ++ pl.sections.flatMap (fun s =>
      if s.bucket = Bucket.bss then []
      else bucketData elf folded s.bucket s.rawsize)
  ++ relocTableBytes blocks

/-- The serialized output image with checksum field `ck`. -/
def serializeImage (elf : ElfImage) (pl : PeLayout) (blocks : List RelocBlock)
    (folded : List (List Nat)) (entry : Nat) (args : ConvArgs) (ck : Nat) :
    List Nat :=
  hdrPre pl entry ++ le32 ck ++ hdrPost elf pl blocks folded args

/-- Modelled from the spec: the byte stream as 16-bit little-endian
words (a trailing odd byte forms its own word). -/
def words16 : List Nat → List Nat
  | [] => []
  | [b] => [b % 256]
  | b0 :: b1 :: rest => (b0 % 256 + 256 * (b1 % 256)) :: words16 rest

def csum_fold (a : Nat) : Nat := a % 65536 + a / 65536

/-- Modelled from the spec: the whole-image checksum: sum of the 16-bit
words with carry folding, plus the total file size, truncated to the
32-bit checksum field. -/
def imageChecksum (bytes : List Nat) : Nat :=
  (csum_fold (csum_fold ((words16 bytes).foldl
      (fun acc w => csum_fold (acc + w)) 0))
    + bytes.length) % 4294967296

/-- Byte offset of the optional header's checksum field in the output
image (stub 64 + signature 4 + file header 20 + 64 optional-header
bytes). -/
def CK_OFF : Nat := 152

def readChecksum (bytes : List Nat) : Nat :=
  match (bytes.drop CK_OFF).take 4 with
  | [b0, b1, b2, b3] => b0 + 256 * b1 + 65536 * b2 + 16777216 * b3
  | _ => 0

def zeroChecksum (bytes : List Nat) : List Nat :=
  bytes.take CK_OFF ++ [0, 0, 0, 0] ++ bytes.drop (CK_OFF + 4)

/-- Modelled from the spec: the PE/COFF Emitter: range-check the image
size (`ImageTooLarge` on overflow), assemble the whole image with a zero
checksum field, compute the whole-image checksum, and patch it into the
optional header. -/
def emit (elf : ElfImage) (pl : PeLayout) (blocks : List RelocBlock)
    (folded : List (List Nat)) (entry : Nat) (args : ConvArgs) :
    Except ConvError (List Nat) :=
  if 4294967296 ≤ alignUp SIZE_OF_HEADERS SECTION_ALIGN + pl.imageSize then
    .error .ImageTooLarge
  else
    .ok (serializeImage elf pl blocks folded entry args
      (imageChecksum (serializeImage elf pl blocks folded entry args 0)))

/-- Modelled from the spec: the one-shot pipeline Parsed → Planned →
Relocated → Resolved → Emitted; any stage failure halts the remaining
stages, and output bytes exist only on success (the destination file is
created only after the complete in-memory image has been assembled). -/
def convert (elf : ElfImage) (args : ConvArgs) : Except ConvError (List Nat) :=
  if elf.machine ≠ EM_X86_64 then .error .UnsupportedMachine
  else
    match translate elf with
    | .error e => .error e
    | .ok t =>
      match resolveEntry elf (plan elf) with
      | .error e => .error e
      | .ok entry => emit elf (plan elf) t.blocks t.folded entry args

/-- The concrete input of the spec's scenario: a code section with one
absolute 64-bit relocation at in-section offset 0x10, whose target
symbol sits at section offset 0x50 (hence RVA 0x1050 once the code
bucket is placed at 0x1000). -/
def c2Elf : ElfImage :=
  { machine := 62, entry_sec := 0, entry_off := 0,
    sections := [{ alloc := true, exec := true, write := false,
                   nobits := false, size := 0x100, align := 16,
                   bytes := List.replicate 0x100 0,
                   relocs := [⟨0x10, 0, .Abs64, 0⟩] }],
    symbols := [⟨0, 0x50⟩] }

/-- A variant of `c2Elf` whose only relocation is a thread-local kind,
for the unsupported-type negative case. -/
def c7Elf : ElfImage :=
  { machine := 62, entry_sec := 0, entry_off := 0,
    sections := [{ alloc := true, exec := true, write := false,
                   nobits := false, size := 0x100, align := 16,
                   bytes := List.replicate 0x100 0,
                   relocs := [⟨0x10, 0, .TlsRel, 0⟩] }],
    symbols := [⟨0, 0x50⟩] }

/-- A variant of `c2Elf` with two relocations whose target byte ranges
overlap ([0x10, 0x18) and [0x14, 0x18)). -/
def c3OverlapElf : ElfImage :=
  { machine := 62, entry_sec := 0, entry_off := 0,
    sections := [{ alloc := true, exec := true, write := false,
                   nobits := false, size := 0x100, align := 16,
                   bytes := List.replicate 0x100 0,
                   relocs := [⟨0x10, 0, .Abs64, 0⟩, ⟨0x14, 0, .Abs32, 0⟩] }],
    symbols := [⟨0, 0x50⟩] }

end Elf2Efi

namespace Tmfifo

theorem putc_loop_all_full (st : Nat → Nat) (c : Nat) :
    ∀ fuel i, (∀ j, j < fuel → tmfifo_full (st (i + j)) = true) →
      putc_loop st c fuel i = [] := by
  intro fuel
  induction fuel with
  | zero => intro i _; rfl
  | succ n ih =>
    intro i h
    have h0 : tmfifo_full (st i) = true := by
      have := h 0 (Nat.succ_pos n)
      simpa using this
    simp only [putc_loop, h0, if_pos]
    exact ih (i + 1) (fun j hj => by
      have := h (j + 1) (by omega)
      simpa [Nat.add_assoc, Nat.add_comm 1 j] using this)

theorem putc_loop_finds (st : Nat → Nat) (c : Nat) :
    ∀ fuel i, (∃ j, j < fuel ∧ tmfifo_full (st (i + j)) = false) →
      putc_loop st c fuel i =
        [(TILE_TO_HOST_DATA, tx_header_data), (TILE_TO_HOST_DATA, c)] := by
  intro fuel
  induction fuel with
  | zero => rintro i ⟨j, hj, _⟩; omega
  | succ n ih =>
    rintro i ⟨j, hj, hfull⟩
    by_cases h0 : tmfifo_full (st i) = true
    · simp only [putc_loop, h0, if_pos]
      refine ih (i + 1) ⟨j - 1, ?_, ?_⟩
      · rcases j with _ | j'
        · rw [Nat.add_zero] at hfull; rw [hfull] at h0; cases h0
        · omega
      · rcases j with _ | j'
        · rw [Nat.add_zero] at hfull; rw [hfull] at h0; cases h0
        · have : i + 1 + (j' + 1 - 1) = i + (j' + 1) := by omega
          rw [this]; exact hfull
    · have h0' : tmfifo_full (st i) = false := by
        cases h : tmfifo_full (st i) with
        | false => rfl
        | true => exact absurd h h0
      simp [putc_loop, h0']

/-- C10: `tmfifo_putc` writes registers only when the remote end is
connected (SCRATCHPAD1 nonzero) and the FIFO is observed non-full within
0xffff polls, in which case it performs exactly two writes to
TILE_TO_HOST_DATA, the constant header word first, then the character;
otherwise it writes no register at all. -/
theorem c10_tmfifo_putc (scratch : Nat) (st : Nat → Nat) (c : Nat) :
    (scratch = 0 → tmfifo_putc scratch st c = [])
    ∧ (scratch ≠ 0 → (∃ j, j < 0xffff ∧ tmfifo_full (st j) = false) →
        tmfifo_putc scratch st c =
          [(TILE_TO_HOST_DATA, tx_header_data), (TILE_TO_HOST_DATA, c)])
    ∧ (scratch ≠ 0 → (∀ j, j < 0xffff → tmfifo_full (st j) = true) →
        tmfifo_putc scratch st c = []) := by
  refine ⟨?_, ?_, ?_⟩
  · intro h; subst h; rfl
  · intro hs hex
    have hc : tmfifo_connected scratch = true := by
      simp [tmfifo_connected, hs]
    unfold tmfifo_putc
    rw [if_neg (not_not_intro hc)]
    exact putc_loop_finds st c 0xffff 0 (by simpa using hex)
  · intro hs hall
    have hc : tmfifo_connected scratch = true := by
      simp [tmfifo_connected, hs]
    unfold tmfifo_putc
    rw [if_neg (not_not_intro hc)]
    exact putc_loop_all_full st c 0xffff 0 (by simpa using hall)

/-- Witness for C10 at concrete register readings. -/
theorem c10_tmfifo_putc_witness :
    tmfifo_putc 1 (fun _ => 0) 65 =
      [(TILE_TO_HOST_DATA, tx_header_data), (TILE_TO_HOST_DATA, 65)]
    ∧ tmfifo_putc 0 (fun _ => 0) 65 = [] :=
  ⟨(c10_tmfifo_putc 1 (fun _ => 0) 65).2.1 (by decide)
      ⟨0, by decide, by decide⟩,
   (c10_tmfifo_putc 0 (fun _ => 0) 65).1 rfl⟩

end Tmfifo

namespace Syslog

theorem occ_cons (c : console_t) (cs : List console_t) (x : Nat) :
    occ (c :: cs) x = occ cs x + if c.notify = some x then 1 else 0 := by
  by_cases h : c.notify = some x <;> simp [occ, h]

theorem occ_eq_zero_iff {cs : List console_t} {x : Nat} :
    occ cs x = 0 ↔ ∀ c ∈ cs, c.notify ≠ some x := by
  simp [occ]

theorem freeSlots_cons (c : console_t) (cs : List console_t) :
    freeSlots (c :: cs) = freeSlots cs + if c.notify = none then 1 else 0 := by
  by_cases h : c.notify = none <;> simp [freeSlots, h]

theorem freeSlots_pos_iff {cs : List console_t} :
    0 < freeSlots cs ↔ ∃ c ∈ cs, c.notify = none := by
  simp [freeSlots]

theorem log_unsubscribe_cons (cb : Nat) (c : console_t) (cs : List console_t) :
    log_unsubscribe cb (c :: cs) =
      if c.notify = some cb then ⟨none, 0⟩ :: cs
      else c :: log_unsubscribe cb cs := rfl

theorem subscribe_find_cons (cb : Nat) (ml : Int) (c : console_t)
    (cs : List console_t) :
    subscribe_find cb ml (c :: cs) =
      if c.notify = none then some (⟨some cb, ml⟩ :: cs)
      else (subscribe_find cb ml cs).map (c :: ·) := rfl

theorem log_subscribe_eq (cb : Nat) (ml : Int) (cs : List console_t) :
    log_subscribe cb ml cs =
      match subscribe_find cb (clampLevel ml) (log_unsubscribe cb cs) with
      | some cs2 => (.success, cs2)
      | none => (.out_of_resources, log_unsubscribe cb cs) := rfl

theorem occ_eq_count (cs : List console_t) (x : Nat) :
    occ cs x = (cs.filterMap (fun c => c.notify)).count x := by
  induction cs with
  | nil => rfl
  | cons c cs ih =>
    rw [occ_cons, ih]
    cases h : c.notify with
    | none => simp [h]
    | some y =>
      by_cases hy : y = x
      · subst hy
        simp [h, List.count_cons]
      · simp [h, List.count_cons, hy, Ne.symm hy]

theorem occ_le_one_of_tableOk {cs : List console_t} (h : tableOk cs) (x : Nat) :
    occ cs x ≤ 1 := by
  rw [occ_eq_count]
  exact List.nodup_iff_count_le_one.mp h x

theorem log_unsubscribe_eq_of_occ_zero {cs : List console_t} {cb : Nat}
    (h : occ cs cb = 0) : log_unsubscribe cb cs = cs := by
  induction cs with
  | nil => rfl
  | cons c cs ih =>
    rw [occ_cons] at h
    by_cases hc : c.notify = some cb
    · exfalso; rw [if_pos hc] at h; omega
    · rw [if_neg hc, Nat.add_zero] at h
      rw [log_unsubscribe_cons, if_neg hc, ih h]

theorem occ_log_unsubscribe_self {cs : List console_t} {cb : Nat}
    (h : occ cs cb ≤ 1) : occ (log_unsubscribe cb cs) cb = 0 := by
  induction cs with
  | nil => rfl
  | cons c cs ih =>
    rw [occ_cons] at h
    by_cases hc : c.notify = some cb
    · rw [if_pos hc] at h
      have h0 : occ cs cb = 0 := by omega
      rw [log_unsubscribe_cons, if_pos hc, occ_cons]
      simp [h0]
    · rw [if_neg hc, Nat.add_zero] at h
      rw [log_unsubscribe_cons, if_neg hc, occ_cons, if_neg hc, Nat.add_zero]
      exact ih h

theorem freeSlots_log_unsubscribe {cs : List console_t} {cb : Nat}
    (h : 1 ≤ occ cs cb) :
    freeSlots (log_unsubscribe cb cs) = freeSlots cs + 1 := by
  induction cs with
  | nil => have h0 : occ ([] : List console_t) cb = 0 := rfl; omega
  | cons c cs ih =>
    rw [occ_cons] at h
    by_cases hc : c.notify = some cb
    · rw [log_unsubscribe_cons, if_pos hc, freeSlots_cons, freeSlots_cons]
      rw [if_pos rfl, if_neg (by rw [hc]; simp)]
    · rw [if_neg hc, Nat.add_zero] at h
      rw [log_unsubscribe_cons, if_neg hc, freeSlots_cons, freeSlots_cons, ih h]
      omega

theorem filterMap_log_unsubscribe_sublist (cb : Nat) (cs : List console_t) :
    ((log_unsubscribe cb cs).filterMap (fun c => c.notify)).Sublist
      (cs.filterMap (fun c => c.notify)) := by
  induction cs with
  | nil => exact List.Sublist.refl _
  | cons c cs ih =>
    by_cases hc : c.notify = some cb
    · rw [log_unsubscribe_cons, if_pos hc]
      have h1 : (List.filterMap (fun c => c.notify)
          ((⟨none, 0⟩ : console_t) :: cs)) =
          List.filterMap (fun c => c.notify) cs := by simp
      have h2 : (List.filterMap (fun c => c.notify) (c :: cs)) =
          cb :: List.filterMap (fun c => c.notify) cs := by simp [hc]
      rw [h1, h2]
      exact List.sublist_cons_self _ _
    · rw [log_unsubscribe_cons, if_neg hc]
      cases h : c.notify with
      | none => simpa [h] using ih
      | some y => simpa [h] using ih.cons₂ y

theorem tableOk_log_unsubscribe {cs : List console_t} (cb : Nat)
    (h : tableOk cs) : tableOk (log_unsubscribe cb cs) :=
  h.sublist (filterMap_log_unsubscribe_sublist cb cs)

theorem subscribe_find_eq_none_iff (cb : Nat) (ml : Int) (cs : List console_t) :
    subscribe_find cb ml cs = none ↔ ∀ c ∈ cs, c.notify ≠ none := by
  induction cs with
  | nil => simp [subscribe_find]
  | cons c cs ih =>
    rw [subscribe_find_cons]
    by_cases hc : c.notify = none
    · simp [hc]
    · rw [if_neg hc]
      constructor
      · intro h d hd
        rcases List.mem_cons.mp hd with rfl | hd'
        · exact hc
        · cases hf : subscribe_find cb ml cs with
          | none => exact ih.mp hf d hd'
          | some l => rw [hf] at h; simp at h
      · intro h
        have hnone : subscribe_find cb ml cs = none :=
          ih.mpr (fun d hd => h d (List.mem_cons_of_mem c hd))
        rw [hnone]; rfl

theorem subscribe_find_occ_self {cb : Nat} {ml : Int}
    {cs cs2 : List console_t} (h : subscribe_find cb ml cs = some cs2) :
    occ cs2 cb = occ cs cb + 1 := by
  induction cs generalizing cs2 with
  | nil => simp [subscribe_find] at h
  | cons c cs ih =>
    rw [subscribe_find_cons] at h
    by_cases hc : c.notify = none
    · rw [if_pos hc] at h
      have he := Option.some.inj h; subst he
      rw [occ_cons, occ_cons]
      have : ¬ (c.notify = some cb) := by rw [hc]; simp
      simp [this]
    · rw [if_neg hc] at h
      cases hf : subscribe_find cb ml cs with
      | none => rw [hf] at h; simp at h
      | some l =>
        rw [hf] at h
        simp only [Option.map_some'] at h
        have he := Option.some.inj h; subst he
        rw [occ_cons, occ_cons, ih hf]
        omega

theorem subscribe_find_levels {cb : Nat} {ml : Int} {cs cs2 : List console_t}
    (h0 : occ cs cb = 0) (h : subscribe_find cb ml cs = some cs2) :
    ∀ c ∈ cs2, c.notify = some cb → c.maxlevel = ml := by
  induction cs generalizing cs2 with
  | nil => simp [subscribe_find] at h
  | cons c cs ih =>
    rw [occ_cons] at h0
    have hcnot : ¬ c.notify = some cb := by
      intro hcb
      rw [if_pos hcb] at h0
      omega
    rw [if_neg hcnot, Nat.add_zero] at h0
    rw [subscribe_find_cons] at h
    by_cases hc : c.notify = none
    · rw [if_pos hc] at h
      have he := Option.some.inj h; subst he
      intro d hd hdn
      rcases List.mem_cons.mp hd with rfl | hd'
      · rfl
      · exact absurd hdn (occ_eq_zero_iff.mp h0 d hd')
    · rw [if_neg hc] at h
      cases hf : subscribe_find cb ml cs with
      | none => rw [hf] at h; simp at h
      | some l =>
        rw [hf] at h
        simp only [Option.map_some'] at h
        have he := Option.some.inj h; subst he
        intro d hd hdn
        rcases List.mem_cons.mp hd with rfl | hd'
        · exact absurd hdn hcnot
        · exact ih h0 hf d hd' hdn

theorem subscribe_find_mem {cb x : Nat} {ml : Int} {cs cs2 : List console_t}
    (h : subscribe_find cb ml cs = some cs2)
    (hx : x ∈ cs2.filterMap (fun c => c.notify)) :
    x = cb ∨ x ∈ cs.filterMap (fun c => c.notify) := by
  induction cs generalizing cs2 with
  | nil => simp [subscribe_find] at h
  | cons c cs ih =>
    rw [subscribe_find_cons] at h
    by_cases hc : c.notify = none
    · rw [if_pos hc] at h
      have he := Option.some.inj h; subst he
      rcases List.mem_filterMap.mp hx with ⟨d, hd, hdn⟩
      rcases List.mem_cons.mp hd with rfl | hd'
      · exact Or.inl (Option.some.inj hdn).symm
      · exact Or.inr (List.mem_filterMap.mpr ⟨d, List.mem_cons_of_mem c hd', hdn⟩)
    · rw [if_neg hc] at h
      cases hf : subscribe_find cb ml cs with
      | none => rw [hf] at h; simp at h
      | some l =>
        rw [hf] at h
        simp only [Option.map_some'] at h
        have he := Option.some.inj h; subst he
        rcases List.mem_filterMap.mp hx with ⟨d, hd, hdn⟩
        rcases List.mem_cons.mp hd with rfl | hd'
        · exact Or.inr (List.mem_filterMap.mpr ⟨d, List.mem_cons_self d cs, hdn⟩)
        · rcases ih hf (List.mem_filterMap.mpr ⟨d, hd', hdn⟩) with h1 | h1
          · exact Or.inl h1
          · rcases List.mem_filterMap.mp h1 with ⟨e, he', hen⟩
            exact Or.inr (List.mem_filterMap.mpr ⟨e, List.mem_cons_of_mem c he', hen⟩)

theorem subscribe_find_tableOk {cb : Nat} {ml : Int} {cs cs2 : List console_t}
    (hok : tableOk cs) (h0 : occ cs cb = 0)
    (h : subscribe_find cb ml cs = some cs2) : tableOk cs2 := by
  induction cs generalizing cs2 with
  | nil => simp [subscribe_find] at h
  | cons c cs ih =>
    have hcnot : ¬ c.notify = some cb := by
      intro hcb
      rw [occ_cons, if_pos hcb] at h0
      omega
    have h0' : occ cs cb = 0 := by
      rw [occ_cons, if_neg hcnot, Nat.add_zero] at h0; exact h0
    rw [subscribe_find_cons] at h
    by_cases hc : c.notify = none
    · rw [if_pos hc] at h
      have he := Option.some.inj h; subst he
      have hgoal : (List.filterMap (fun c => c.notify)
          ((⟨some cb, ml⟩ : console_t) :: cs)) =
          cb :: List.filterMap (fun c => c.notify) cs := by simp
      unfold tableOk at hok ⊢
      rw [hgoal]
      have hok' : (List.filterMap (fun c => c.notify) cs).Nodup := by
        have hh : (List.filterMap (fun c => c.notify) (c :: cs)) =
            List.filterMap (fun c => c.notify) cs := by simp [hc]
        rwa [hh] at hok
      refine List.nodup_cons.mpr ⟨?_, hok'⟩
      intro hmem
      rcases List.mem_filterMap.mp hmem with ⟨d, hd, hdn⟩
      exact occ_eq_zero_iff.mp h0' d hd hdn
    · rw [if_neg hc] at h
      cases hf : subscribe_find cb ml cs with
      | none => rw [hf] at h; simp at h
      | some l =>
        rw [hf] at h
        simp only [Option.map_some'] at h
        have he := Option.some.inj h; subst he
        cases hn : c.notify with
        | none => exact absurd hn hc
        | some y =>
          unfold tableOk at hok ⊢
          have hg1 : (List.filterMap (fun c => c.notify) (c :: l)) =
              y :: List.filterMap (fun c => c.notify) l := by simp [hn]
          have hg2 : (List.filterMap (fun c => c.notify) (c :: cs)) =
              y :: List.filterMap (fun c => c.notify) cs := by simp [hn]
          rw [hg1]
          rw [hg2] at hok
          have hok' := List.nodup_cons.mp hok
          refine List.nodup_cons.mpr ⟨?_, ih hok'.2 h0' hf⟩
          intro hmem
          rcases subscribe_find_mem hf hmem with rfl | h1
          · exact hcnot hn
          · exact hok'.1 h1

/-- C8: the console table holds each callback at most once; re-subscribing
an already-registered callback succeeds and updates its level;
`log_subscribe` reports `out_of_resources` only when every slot is held by
a different callback; `log_unsubscribe` of a registered callback clears
exactly one slot. -/
theorem c8_console_table (cs : List console_t) (cb : Nat) (ml : Int)
    (hok : tableOk cs) :
    tableOk (log_subscribe cb ml cs).2
    ∧ (1 ≤ occ cs cb →
        (log_subscribe cb ml cs).1 = .success
        ∧ occ (log_subscribe cb ml cs).2 cb = 1
        ∧ ∀ c ∈ (log_subscribe cb ml cs).2, c.notify = some cb →
            c.maxlevel = clampLevel ml)
    ∧ ((log_subscribe cb ml cs).1 = .out_of_resources →
        ∀ c ∈ cs, ∃ y, c.notify = some y ∧ y ≠ cb)
    ∧ (1 ≤ occ cs cb →
        freeSlots (log_unsubscribe cb cs) = freeSlots cs + 1
        ∧ occ (log_unsubscribe cb cs) cb = 0) := by
  have hle : occ cs cb ≤ 1 := occ_le_one_of_tableOk hok cb
  have hok1 : tableOk (log_unsubscribe cb cs) := tableOk_log_unsubscribe cb hok
  have hz1 : occ (log_unsubscribe cb cs) cb = 0 := occ_log_unsubscribe_self hle
  refine ⟨?_, ?_, ?_, ?_⟩
  · rw [log_subscribe_eq]
    cases hfind : subscribe_find cb (clampLevel ml) (log_unsubscribe cb cs) with
    | none => exact hok1
    | some cs2 => exact subscribe_find_tableOk hok1 hz1 hfind
  · intro hmem
    have hfree : 0 < freeSlots (log_unsubscribe cb cs) := by
      rw [freeSlots_log_unsubscribe hmem]; omega
    rcases freeSlots_pos_iff.mp hfree with ⟨d, hd1, hd2⟩
    cases hfind : subscribe_find cb (clampLevel ml) (log_unsubscribe cb cs) with
    | none =>
      exact absurd hd2 ((subscribe_find_eq_none_iff cb (clampLevel ml)
        (log_unsubscribe cb cs)).mp hfind d hd1)
    | some cs2 =>
      rw [log_subscribe_eq, hfind]
      refine ⟨rfl, ?_, ?_⟩
      · have := subscribe_find_occ_self hfind
        rw [hz1] at this
        simpa using this
      · simpa using subscribe_find_levels hz1 hfind
  · intro hoor
    rw [log_subscribe_eq] at hoor
    cases hfind : subscribe_find cb (clampLevel ml) (log_unsubscribe cb cs) with
    | some cs2 => rw [hfind] at hoor; simp at hoor
    | none =>
    have hz : occ cs cb = 0 := by
      by_contra hne
      have hmem : 1 ≤ occ cs cb := by omega
      have hfree : 0 < freeSlots (log_unsubscribe cb cs) := by
        rw [freeSlots_log_unsubscribe hmem]; omega
      rcases freeSlots_pos_iff.mp hfree with ⟨d, hd1, hd2⟩
      exact absurd hd2 ((subscribe_find_eq_none_iff cb (clampLevel ml)
        (log_unsubscribe cb cs)).mp hfind d hd1)
    have heq : log_unsubscribe cb cs = cs := log_unsubscribe_eq_of_occ_zero hz
    intro c hc
    have hnn : c.notify ≠ none :=
      (subscribe_find_eq_none_iff cb (clampLevel ml)
        (log_unsubscribe cb cs)).mp hfind c (by rwa [heq])
    cases hn : c.notify with
    | none => exact absurd hn hnn
    | some y =>
      refine ⟨y, rfl, ?_⟩
      rintro rfl
      exact occ_eq_zero_iff.mp hz c hc hn
  · intro hmem
    exact ⟨freeSlots_log_unsubscribe hmem, hz1⟩

theorem writeBuf_get {buf : Nat → Char} {off : Nat} {s : List Char}
    (j : Nat) (h : j < s.length) :
    writeBuf buf off s (off + j) = s.get ⟨j, h⟩ := by
  unfold writeBuf
  rw [if_pos (by omega)]
  have he : off + j - off = j := by omega
  rw [he, List.getD_eq_getElem _ _ h, List.get_eq_getElem]

theorem writeBuf_last {buf : Nat → Char} {off : Nat} (s : List Char)
    (x : Char) : writeBuf buf off (s ++ [x]) (off + s.length) = x := by
  unfold writeBuf
  rw [if_pos (by omega)]
  have he : off + s.length - off = s.length := by omega
  rw [he, List.getD_append_right _ _ _ _ (Nat.le_refl _)]
  simp

theorem vformat_core_spec (buf : Nat → Char) (a b c : Char)
    (body : List Char) :
    3 ≤ (vformat_core buf 1024 [a, b, c] body).2
    ∧ (vformat_core buf 1024 [a, b, c] body).2 ≤ 1023
    ∧ (vformat_core buf 1024 [a, b, c] body).1
        ((vformat_core buf 1024 [a, b, c] body).2 - 1) = '\n'
    ∧ (vformat_core buf 1024 [a, b, c] body).1
        ((vformat_core buf 1024 [a, b, c] body).2) = NUL := by
  have hm : min body.length 1020 ≤ 1020 := Nat.min_le_right _ _
  have hcore : vformat_core buf 1024 [a, b, c] body =
      (let buf2 := writeBuf (writeBuf buf 0 [a, b, c, NUL]) 3
          (body.take 1020 ++ [NUL])
       let len2 := 3 + min body.length 1020
       if buf2 (len2 - 1) ≠ '\n' then
         (writeBuf buf2 (if len2 + 1 = 1024 then len2 - 1 else len2)
            ['\n', NUL],
          (if len2 + 1 = 1024 then len2 - 1 else len2) + 1)
       else (buf2, len2)) := by
    simp only [vformat_core, snprintf_model]
    norm_num [Nat.min_def]
  rw [hcore]
  have hnul : writeBuf (writeBuf buf 0 [a, b, c, NUL]) 3
      (body.take 1020 ++ [NUL]) (3 + min body.length 1020) = NUL := by
    have hlen : (body.take 1020).length = min body.length 1020 := by
      rw [List.length_take, Nat.min_comm]
    rw [← hlen]
    exact writeBuf_last _ _
  by_cases hnl : writeBuf (writeBuf buf 0 [a, b, c, NUL]) 3
      (body.take 1020 ++ [NUL]) (3 + min body.length 1020 - 1) = '\n'
  · rw [if_neg (not_not_intro hnl)]
    exact ⟨by omega, by omega, hnl, hnul⟩
  · rw [if_pos hnl]
    by_cases hfull : 3 + min body.length 1020 + 1 = 1024
    · rw [if_pos hfull]
      refine ⟨by omega, by omega, ?_, ?_⟩
      · have he : 3 + min body.length 1020 - 1 + 1 - 1 =
            3 + min body.length 1020 - 1 + 0 := by omega
        rw [he]
        exact writeBuf_get 0 (by norm_num)
      · have he : 3 + min body.length 1020 - 1 + 1 =
            3 + min body.length 1020 - 1 + 1 := rfl
        exact writeBuf_get 1 (by norm_num)
    · rw [if_neg hfull]
      refine ⟨by omega, by omega, ?_, ?_⟩
      · have he : 3 + min body.length 1020 + 1 - 1 =
            3 + min body.length 1020 + 0 := by omega
        rw [he]
        exact writeBuf_get 0 (by norm_num)
      · exact writeBuf_get 1 (by norm_num)

theorem syslog_vformat_spec (buf : Nat → Char) (level : Int)
    (body : List Char) (hlv : IS_SYSLOG_LEVEL level = true) :
    3 ≤ (syslog_vformat buf LOG_MAX_LEN level [] body).2
    ∧ (syslog_vformat buf LOG_MAX_LEN level [] body).2 ≤ 1023
    ∧ (syslog_vformat buf LOG_MAX_LEN level [] body).1
        ((syslog_vformat buf LOG_MAX_LEN level [] body).2 - 1) = '\n'
    ∧ (syslog_vformat buf LOG_MAX_LEN level [] body).1
        ((syslog_vformat buf LOG_MAX_LEN level [] body).2) = NUL := by
  have hvf : syslog_vformat buf LOG_MAX_LEN level [] body =
      vformat_core buf 1024
        ['<', Char.ofNat (48 + level.toNat), '>'] body := by
    unfold syslog_vformat
    rw [if_neg (by simp [hlv, LOG_MAX_LEN, SYSLOG_EMPTY_MSG_SIZE])]
    rfl
  rw [hvf]
  exact vformat_core_spec buf _ _ _ body

theorem count_filter_range (n : Nat) (p : Nat → Bool) (i : Nat) :
    (((List.range n).filter p).count i) =
      if i < n ∧ p i = true then 1 else 0 := by
  by_cases h : i < n ∧ p i = true
  · rw [if_pos h]
    exact List.count_eq_one_of_mem ((List.nodup_range n).filter p)
      (List.mem_filter.mpr ⟨List.mem_range.mpr h.1, h.2⟩)
  · rw [if_neg h]
    apply List.count_eq_zero_of_not_mem
    intro hmem
    rcases List.mem_filter.mp hmem with ⟨h1, h2⟩
    exact h ⟨List.mem_range.mp h1, h2⟩

/-- C9: `Log` delivers a message that is NUL-terminated, ends in a
newline, and is shorter than 1024 characters (excluding the NUL), and a
console slot is invoked exactly once iff it is non-NULL and the clamped
severity is at most its maxlevel. -/
theorem c9_log_delivery (cs : List console_t) (buf : Nat → Char)
    (level : Int) (body : List Char) :
    1 ≤ (Log cs buf level body).2.1
    ∧ (Log cs buf level body).2.1 < LOG_MAX_LEN
    ∧ (Log cs buf level body).1 ((Log cs buf level body).2.1 - 1) = '\n'
    ∧ (Log cs buf level body).1 ((Log cs buf level body).2.1) = NUL
    ∧ ∀ i : Nat, ((Log cs buf level body).2.2).count i =
        (if i < cs.length ∧ (cs.getD i noConsole).notify ≠ none
            ∧ clampLevel level ≤ (cs.getD i noConsole).maxlevel
         then 1 else 0) := by
  have hlv : IS_SYSLOG_LEVEL
      (if IS_SYSLOG_LEVEL level then level else LOG_DEBUG) = true := by
    by_cases h : IS_SYSLOG_LEVEL level
    · rw [if_pos h]; exact h
    · rw [if_neg h]; decide
  have hclamp : clampLevel level =
      (if IS_SYSLOG_LEVEL level then level else LOG_DEBUG) := rfl
  have hspec := syslog_vformat_spec buf
    (if IS_SYSLOG_LEVEL level then level else LOG_DEBUG) body hlv
  simp only [LOG_MAX_LEN] at hspec
  have hlog : Log cs buf level body =
      ((syslog_vformat buf 1024
          (if IS_SYSLOG_LEVEL level then level else LOG_DEBUG) [] body).1,
       (syslog_vformat buf 1024
          (if IS_SYSLOG_LEVEL level then level else LOG_DEBUG) [] body).2,
       (List.range cs.length).filter
         (fun i => (cs.getD i noConsole).notify ≠ none
           ∧ (if IS_SYSLOG_LEVEL level then level else LOG_DEBUG)
               ≤ (cs.getD i noConsole).maxlevel)) := by
    unfold Log
    simp only [LOG_MAX_LEN]
    have hcond : ¬ ((syslog_vformat buf 1024
        (if IS_SYSLOG_LEVEL level then level else LOG_DEBUG) [] body).2
          + 1 ≤ 1) := by
      omega
    rw [if_neg hcond]
  have h1 : (Log cs buf level body).1 = (syslog_vformat buf 1024
      (if IS_SYSLOG_LEVEL level then level else LOG_DEBUG) [] body).1 := by
    rw [hlog]
  have h2 : (Log cs buf level body).2.1 = (syslog_vformat buf 1024
      (if IS_SYSLOG_LEVEL level then level else LOG_DEBUG) [] body).2 := by
    rw [hlog]
  have h3 : (Log cs buf level body).2.2 = (List.range cs.length).filter
      (fun i => (cs.getD i noConsole).notify ≠ none
        ∧ (if IS_SYSLOG_LEVEL level then level else LOG_DEBUG)
            ≤ (cs.getD i noConsole).maxlevel) := by
    rw [hlog]
  rw [h1, h2, h3]
  refine ⟨by omega, by simp only [LOG_MAX_LEN]; omega,
    hspec.2.2.1, hspec.2.2.2, ?_⟩
  intro i
  rw [count_filter_range]
  rw [hclamp]
  by_cases h : i < cs.length ∧ (cs.getD i noConsole).notify ≠ none
      ∧ (if IS_SYSLOG_LEVEL level then level else LOG_DEBUG)
          ≤ (cs.getD i noConsole).maxlevel
  · rw [if_pos h, if_pos ⟨h.1, by
      simp only [decide_eq_true_eq]
      exact ⟨h.2.1, h.2.2⟩⟩]
  · rw [if_neg h, if_neg ?_]
    intro hcontra
    rcases hcontra with ⟨h1, h2⟩
    simp only [decide_eq_true_eq] at h2
    exact h ⟨h1, h2⟩

/-- Witness for C8 at a concrete table. -/
theorem c8_console_table_witness :
    tableOk ([⟨some 5, 7⟩, ⟨none, 0⟩] : List console_t)
    ∧ (log_subscribe 5 3 [⟨some 5, 7⟩, ⟨none, 0⟩]).1 = .success :=
  ⟨by decide,
   ((c8_console_table [⟨some 5, 7⟩, ⟨none, 0⟩] 5 3 (by decide)).2.1
     (by decide)).1⟩

end Syslog



namespace Elf2Efi

theorem translate_eq_of_some {elf : ElfImage} {u : RelocType × Nat × Nat}
    (hf : findUnsupported elf = some u) :
    translate elf = .error (.UnsupportedRelocation u.1 u.2.1 u.2.2) := by
  unfold translate
  rw [hf]

theorem translate_eq_of_none {elf : ElfImage}
    (hf : findUnsupported elf = none) :
    translate elf =
      if anyOverlap elf then .error .FormatError
      else if ¬ allResolvable elf then .error .FormatError
      else .ok { blocks := mkBlocks (allEntries elf),
                 folded := foldAll elf } := by
  unfold translate
  rw [hf]

theorem translate_ok_parts {elf : ElfImage} {t : TransOut}
    (h : translate elf = .ok t) :
    findUnsupported elf = none ∧ anyOverlap elf = false
    ∧ allResolvable elf = true
    ∧ t = { blocks := mkBlocks (allEntries elf), folded := foldAll elf } := by
  cases hf : findUnsupported elf with
  | some u =>
    rw [translate_eq_of_some hf] at h
    exact Except.noConfusion h
  | none =>
    rw [translate_eq_of_none hf] at h
    by_cases ho : anyOverlap elf
    · rw [if_pos ho] at h
      exact Except.noConfusion h
    · rw [if_neg ho] at h
      by_cases hr : allResolvable elf
      · rw [if_neg (not_not_intro hr)] at h
        refine ⟨rfl, by simpa using ho, hr, (Except.ok.inj h).symm⟩
      · rw [if_pos hr] at h
        exact Except.noConfusion h

/-- C6: the conversion is a pure function of the in-memory image and the
arguments: equal inputs give identical results; no environment or
persisted state appears in the signature. -/
theorem c6_determinism (elf1 elf2 : ElfImage) (a1 a2 : ConvArgs)
    (h1 : elf1 = elf2) (h2 : a1 = a2) :
    convert elf1 a1 = convert elf2 a2 := by
  rw [h1, h2]

/-- Witness for C6 at a concrete input. -/
theorem c6_determinism_witness :
    convert c2Elf ⟨10, false⟩ = convert c2Elf ⟨10, false⟩ :=
  c6_determinism c2Elf c2Elf ⟨10, false⟩ ⟨10, false⟩ rfl rfl

theorem convert_eq_of_translate_err {elf : ElfImage} {args : ConvArgs}
    {e : ConvError} (hm : elf.machine = EM_X86_64)
    (ht : translate elf = .error e) :
    convert elf args = .error e := by
  unfold convert
  rw [if_neg (not_not_intro hm), ht]

/-- C7: a relocation type outside the supported set (thread-local,
PLT-indirect or deferred-external kinds) makes the converter fail with
`UnsupportedRelocation` naming the type code, section and offset, and no
output bytes exist: the output file is written only from a successful
result. -/
theorem c7_unsupported_relocation (elf : ElfImage) (args : ConvArgs)
    (u : RelocType × Nat × Nat) (hm : elf.machine = EM_X86_64)
    (hu : findUnsupported elf = some u) :
    convert elf args = .error (.UnsupportedRelocation u.1 u.2.1 u.2.2)
    ∧ ∀ out, convert elf args ≠ .ok out := by
  have hc : convert elf args
      = .error (.UnsupportedRelocation u.1 u.2.1 u.2.2) :=
    convert_eq_of_translate_err hm (translate_eq_of_some hu)
  refine ⟨hc, fun out hout => ?_⟩
  rw [hc] at hout
  exact Except.noConfusion hout

/-- Witness for C7 on a concrete image with a TLS relocation. -/
theorem c7_unsupported_relocation_witness :
    convert c7Elf ⟨10, false⟩ =
      .error (.UnsupportedRelocation .TlsRel 0 0x10) :=
  (c7_unsupported_relocation c7Elf ⟨10, false⟩ (.TlsRel, 0, 0x10) rfl
    (by decide)).1

/-- C2: the concrete scenario: an input whose code section contains one
absolute 64-bit relocation at offset 0x10, with its target symbol placed
by the layout stage at RVA 0x1050, yields exactly one relocation block
for page 0x1000 containing the single entry (offset 0x050, 64-bit
absolute). -/
theorem c2_concrete_scenario :
    symbolRVA c2Elf 0 = 0x1050
    ∧ blocksOf c2Elf = some [⟨0x1000, [(0x050, FixupKind.Dir64)]⟩] :=
  ⟨by decide, by decide⟩

end Elf2Efi

namespace Elf2Efi

theorem length_filterMap_entryOf (elf : ElfImage) (rs : List Relocation) :
    (rs.filterMap (entryOf elf)).length
      = rs.countP (fun r => needsRuntime r.rtype) := by
  induction rs with
  | nil => rfl
  | cons r rs ih =>
    by_cases h : needsRuntime r.rtype
    · have he : entryOf elf r = some (targetRVA elf r, fixupKindOf r.rtype) := by
        unfold entryOf
        rw [if_pos h]
      simp [List.filterMap_cons, he, ih, List.countP_cons, h]
    · have he : entryOf elf r = none := by
        unfold entryOf
        rw [if_neg h]
      simp [List.filterMap_cons, he, ih, List.countP_cons, h]

theorem length_flatMap_entries (elf : ElfImage) (ss : List ElfSection) :
    (ss.flatMap (fun s => s.relocs.filterMap (entryOf elf))).length
      = (ss.map (fun s => s.relocs.countP (fun r => needsRuntime r.rtype))).sum := by
  induction ss with
  | nil => rfl
  | cons s ss ih =>
    rw [List.flatMap_cons, List.length_append, length_filterMap_entryOf,
      List.map_cons, List.sum_cons, ih]

theorem length_blockEntries (sorted : List (Nat × FixupKind)) (p : Nat) :
    (blockEntries sorted p).length
      = (sorted.map (fun e => e.1 / PAGE_SIZE)).count p := by
  unfold blockEntries
  rw [List.length_map, ← List.countP_eq_length_filter, List.count,
    List.countP_map]
  congr 1

theorem sum_blocks_length (es : List (Nat × FixupKind)) :
    ((mkBlocks es).map (fun b => b.entries.length)).sum = es.length := by
  simp only [mkBlocks]
  rw [List.map_map]
  have h1 : ∀ p ∈ ((sortEntries es).map (fun e => e.1 / PAGE_SIZE)).dedup,
      ((fun b => b.entries.length) ∘
        (fun p => RelocBlock.mk (p * PAGE_SIZE)
          (blockEntries (sortEntries es) p))) p
      = ((sortEntries es).map (fun e => e.1 / PAGE_SIZE)).count p :=
    fun p _ => length_blockEntries _ p
  rw [List.map_congr_left h1, List.sum_map_count_dedup_eq_length,
    List.length_map]
  unfold sortEntries
  exact (List.perm_insertionSort entryLE es).length_eq

/-- C1: a runtime base-relocation entry is emitted exactly for the
absolute-address relocations, so the total number of entries across all
emitted blocks equals the number of source relocations of
absolute-address kind. -/
theorem c1_relocation_count (elf : ElfImage) (t : TransOut)
    (h : translate elf = .ok t) :
    (t.blocks.map (fun b => b.entries.length)).sum = absRelocCount elf := by
  have hp := translate_ok_parts h
  rw [hp.2.2.2]
  show ((mkBlocks (allEntries elf)).map (fun b => b.entries.length)).sum = _
  rw [sum_blocks_length]
  show (allEntries elf).length = absRelocCount elf
  unfold allEntries absRelocCount
  exact length_flatMap_entries elf elf.sections

/-- Witness for C1 at the concrete scenario input. -/
theorem c1_relocation_count_witness :
    ((mkBlocks (allEntries c2Elf)).map (fun b => b.entries.length)).sum
      = absRelocCount c2Elf :=
  c1_relocation_count c2Elf
    { blocks := mkBlocks (allEntries c2Elf), folded := foldAll c2Elf }
    rfl

end Elf2Efi

namespace Elf2Efi

theorem mkBlocks_invariants (es : List (Nat × FixupKind)) :
    ∀ b ∈ mkBlocks es, b.pageRVA % PAGE_SIZE = 0 ∧ b.entries ≠ []
      ∧ b.entries.Pairwise (fun x y => x.1 ≤ y.1) := by
  intro b hb
  simp only [mkBlocks] at hb
  rcases List.mem_map.mp hb with ⟨p, hp, rfl⟩
  refine ⟨Nat.mul_mod_left p PAGE_SIZE, ?_, ?_⟩
  · have hpk : p ∈ (sortEntries es).map (fun e => e.1 / PAGE_SIZE) :=
      List.mem_dedup.mp hp
    rcases List.mem_map.mp hpk with ⟨e, he, hkey⟩
    show blockEntries (sortEntries es) p ≠ []
    unfold blockEntries
    intro hnil
    rw [List.map_eq_nil_iff] at hnil
    have hmem : e ∈ (sortEntries es).filter
        (fun e => e.1 / PAGE_SIZE = p) :=
      List.mem_filter.mpr ⟨he, by simp [hkey]⟩
    rw [hnil] at hmem
    exact absurd hmem (List.not_mem_nil e)
  · have hs : (sortEntries es).Pairwise entryLE := by
      unfold sortEntries
      exact List.sorted_insertionSort entryLE es
    have hf : ((sortEntries es).filter
        (fun e => e.1 / PAGE_SIZE = p)).Pairwise entryLE :=
      List.Pairwise.sublist (List.filter_sublist _) hs
    show (blockEntries (sortEntries es) p).Pairwise (fun x y => x.1 ≤ y.1)
    unfold blockEntries
    rw [List.pairwise_map]
    refine List.Pairwise.imp_of_mem (fun {a c} ha hc hac => ?_) hf
    have hpa : a.1 / PAGE_SIZE = p := by
      have := (List.mem_filter.mp ha).2
      simpa using this
    have hpc : c.1 / PAGE_SIZE = p := by
      have := (List.mem_filter.mp hc).2
      simpa using this
    unfold entryLE at hac
    simp only [PAGE_SIZE] at hpa hpc ⊢
    omega

/-- C3: every emitted relocation block has a 4 KiB-aligned page RVA and
nonempty entries sorted ascending by in-page offset; two relocations
whose target byte ranges overlap within the same section make the
conversion fail with FormatError instead of emitting an image. -/
theorem c3_block_invariants (elf elf2 : ElfImage) (t : TransOut) :
    (translate elf = .ok t →
      ∀ b ∈ t.blocks, b.pageRVA % PAGE_SIZE = 0 ∧ b.entries ≠ []
        ∧ b.entries.Pairwise (fun x y => x.1 ≤ y.1))
    ∧ (findUnsupported elf2 = none → anyOverlap elf2 = true →
        translate elf2 = .error .FormatError) := by
  constructor
  · intro h b hb
    have hp := translate_ok_parts h
    rw [hp.2.2.2] at hb
    exact mkBlocks_invariants (allEntries elf) b hb
  · intro hf ho
    rw [translate_eq_of_none hf, if_pos ho]

/-- Witness for C3: the overlap input fails with FormatError, and the
scenario input's block satisfies the invariants. -/
theorem c3_block_invariants_witness :
    translate c3OverlapElf = .error ConvError.FormatError :=
  (c3_block_invariants c2Elf c3OverlapElf ⟨[], []⟩).2 (by decide) (by decide)

end Elf2Efi

namespace Elf2Efi

theorem hdrPre_length (pl : PeLayout) (entry : Nat) :
    (hdrPre pl entry).length = CK_OFF := by
  simp [hdrPre, le16, le32, le64, CK_OFF]

theorem zeroChecksum_serialize (elf : ElfImage) (pl : PeLayout)
    (blocks : List RelocBlock) (folded : List (List Nat)) (entry : Nat)
    (args : ConvArgs) (ck : Nat) :
    zeroChecksum (serializeImage elf pl blocks folded entry args ck)
      = serializeImage elf pl blocks folded entry args 0 := by
  have h1 : List.take CK_OFF (hdrPre pl entry
      ++ (le32 ck ++ hdrPost elf pl blocks folded args)) = hdrPre pl entry :=
    List.take_left' (hdrPre_length pl entry)
  have h2 : List.drop (CK_OFF + 4) (hdrPre pl entry
      ++ (le32 ck ++ hdrPost elf pl blocks folded args))
      = hdrPost elf pl blocks folded args := by
    rw [← List.append_assoc]
    exact List.drop_left' (by rw [List.length_append, hdrPre_length pl entry]; rfl)
  unfold zeroChecksum serializeImage
  simp only [List.append_assoc]
  rw [h1, h2]
  rfl

theorem readChecksum_serialize (elf : ElfImage) (pl : PeLayout)
    (blocks : List RelocBlock) (folded : List (List Nat)) (entry : Nat)
    (args : ConvArgs) (ck : Nat) (hck : ck < 4294967296) :
    readChecksum (serializeImage elf pl blocks folded entry args ck) = ck := by
  have h2 : List.drop CK_OFF (hdrPre pl entry
      ++ (le32 ck ++ hdrPost elf pl blocks folded args))
      = le32 ck ++ hdrPost elf pl blocks folded args :=
    List.drop_left' (hdrPre_length pl entry)
  have h3 : List.take 4 (le32 ck ++ hdrPost elf pl blocks folded args)
      = le32 ck :=
    List.take_left' rfl
  unfold readChecksum serializeImage
  simp only [List.append_assoc]
  rw [h2, h3]
  show ck % 256 + 256 * (ck / 256 % 256) + 65536 * (ck / 65536 % 256)
      + 16777216 * (ck / 16777216 % 256) = ck
  omega

theorem emit_eq_of_small {elf : ElfImage} {pl : PeLayout}
    {blocks : List RelocBlock} {folded : List (List Nat)} {entry : Nat}
    {args : ConvArgs}
    (hs : ¬ 4294967296 ≤ alignUp SIZE_OF_HEADERS SECTION_ALIGN + pl.imageSize) :
    emit elf pl blocks folded entry args =
      .ok (serializeImage elf pl blocks folded entry args
        (imageChecksum (serializeImage elf pl blocks folded entry args 0))) := by
  unfold emit
  rw [if_neg hs]

theorem emit_ok_shape {elf : ElfImage} {pl : PeLayout}
    {blocks : List RelocBlock} {folded : List (List Nat)} {entry : Nat}
    {args : ConvArgs} {out : List Nat}
    (h : emit elf pl blocks folded entry args = .ok out) :
    out = serializeImage elf pl blocks folded entry args
      (imageChecksum (serializeImage elf pl blocks folded entry args 0)) := by
  by_cases hs : 4294967296 ≤ alignUp SIZE_OF_HEADERS SECTION_ALIGN + pl.imageSize
  · unfold emit at h
    rw [if_pos hs] at h
    exact Except.noConfusion h
  · rw [emit_eq_of_small hs] at h
    exact (Except.ok.inj h).symm

theorem convert_ok_shape {elf : ElfImage} {args : ConvArgs} {out : List Nat}
    (h : convert elf args = .ok out) :
    ∃ t entry, translate elf = .ok t
      ∧ resolveEntry elf (plan elf) = .ok entry
      ∧ out = serializeImage elf (plan elf) t.blocks t.folded entry args
          (imageChecksum
            (serializeImage elf (plan elf) t.blocks t.folded entry args 0)) := by
  by_cases hm : elf.machine = EM_X86_64
  · cases ht : translate elf with
    | error e =>
      rw [convert_eq_of_translate_err hm ht] at h
      exact Except.noConfusion h
    | ok t =>
      cases he : resolveEntry elf (plan elf) with
      | error e =>
        have hc : convert elf args = .error e := by
          unfold convert
          rw [if_neg (not_not_intro hm), ht, he]
        rw [hc] at h
        exact Except.noConfusion h
      | ok entry =>
        have hc : convert elf args =
            emit elf (plan elf) t.blocks t.folded entry args := by
          unfold convert
          rw [if_neg (not_not_intro hm), ht, he]
        rw [hc] at h
        exact ⟨t, entry, rfl, rfl, emit_ok_shape h⟩
  · have hc : convert elf args = .error .UnsupportedMachine := by
      unfold convert
      rw [if_pos hm]
    rw [hc] at h
    exact Except.noConfusion h

/-- C4: in every successfully emitted image, recomputing the whole-image
checksum with the checksum field zeroed reproduces exactly the value
stored in the optional header. -/
theorem c4_checksum (elf : ElfImage) (args : ConvArgs) (out : List Nat)
    (h : convert elf args = .ok out) :
    imageChecksum (zeroChecksum out) = readChecksum out := by
  obtain ⟨t, entry, ht, he, hout⟩ := convert_ok_shape h
  have hck : imageChecksum
      (serializeImage elf (plan elf) t.blocks t.folded entry args 0)
      < 4294967296 := by
    unfold imageChecksum
    exact Nat.mod_lt _ (by norm_num)
  rw [hout, zeroChecksum_serialize,
    readChecksum_serialize elf (plan elf) t.blocks t.folded entry args _ hck]

set_option maxHeartbeats 4000000 in
/-- Witness for C4 at the concrete scenario input. -/
theorem c4_checksum_witness :
    imageChecksum (zeroChecksum (serializeImage c2Elf (plan c2Elf)
        (mkBlocks (allEntries c2Elf)) (foldAll c2Elf) 4096 ⟨10, false⟩
        (imageChecksum (serializeImage c2Elf (plan c2Elf)
          (mkBlocks (allEntries c2Elf)) (foldAll c2Elf) 4096 ⟨10, false⟩ 0))))
      = readChecksum (serializeImage c2Elf (plan c2Elf)
        (mkBlocks (allEntries c2Elf)) (foldAll c2Elf) 4096 ⟨10, false⟩
        (imageChecksum (serializeImage c2Elf (plan c2Elf)
          (mkBlocks (allEntries c2Elf)) (foldAll c2Elf) 4096 ⟨10, false⟩ 0))) :=
  c4_checksum c2Elf ⟨10, false⟩ _ rfl

end Elf2Efi

namespace Elf2Efi

theorem alignUp_mod_section (n : Nat) :
    alignUp n SECTION_ALIGN % SECTION_ALIGN = 0 := by
  unfold alignUp SECTION_ALIGN
  rw [if_neg (by norm_num)]
  omega

theorem alignUp_mod_file (n : Nat) :
    alignUp n FILE_ALIGN % FILE_ALIGN = 0 := by
  unfold alignUp FILE_ALIGN
  rw [if_neg (by norm_num)]
  omega

theorem le_alignUp_section (n : Nat) : n ≤ alignUp n SECTION_ALIGN := by
  unfold alignUp SECTION_ALIGN
  rw [if_neg (by norm_num)]
  omega

theorem layoutFold_cons (elf : ElfImage) (b : Bucket) (l : List Bucket)
    (rva fp : Nat) :
    layoutFold elf (b :: l) rva fp =
      { bucket := b, rva := rva, vsize := bucketVSize elf b,
        rawsize := if b = Bucket.bss then 0
                   else alignUp (bucketVSize elf b) FILE_ALIGN,
        fileptr := fp } ::
      layoutFold elf l (rva + alignUp (bucketVSize elf b) SECTION_ALIGN)
        (fp + if b = Bucket.bss then 0
              else alignUp (bucketVSize elf b) FILE_ALIGN) := rfl

theorem layoutFold_rva_lb (elf : ElfImage) :
    ∀ (l : List Bucket) (rva fp : Nat),
      ∀ s ∈ layoutFold elf l rva fp, rva ≤ s.rva := by
  intro l
  induction l with
  | nil => intro rva fp s hs; exact absurd hs (List.not_mem_nil s)
  | cons b l ih =>
    intro rva fp s hs
    rw [layoutFold_cons] at hs
    rcases List.mem_cons.mp hs with rfl | hs'
    · exact Nat.le_refl _
    · exact Nat.le_trans (Nat.le_add_right _ _) (ih _ _ s hs')

theorem layoutFold_rva_aligned (elf : ElfImage) :
    ∀ (l : List Bucket) (rva fp : Nat), rva % SECTION_ALIGN = 0 →
      ∀ s ∈ layoutFold elf l rva fp, s.rva % SECTION_ALIGN = 0 := by
  intro l
  induction l with
  | nil => intro rva fp _ s hs; exact absurd hs (List.not_mem_nil s)
  | cons b l ih =>
    intro rva fp h0 s hs
    rw [layoutFold_cons] at hs
    rcases List.mem_cons.mp hs with rfl | hs'
    · exact h0
    · refine ih _ _ ?_ s hs'
      rw [Nat.add_mod, h0, alignUp_mod_section (bucketVSize elf b)]
      simp

theorem layoutFold_fp_aligned (elf : ElfImage) :
    ∀ (l : List Bucket) (rva fp : Nat), fp % FILE_ALIGN = 0 →
      ∀ s ∈ layoutFold elf l rva fp, s.fileptr % FILE_ALIGN = 0 := by
  intro l
  induction l with
  | nil => intro rva fp _ s hs; exact absurd hs (List.not_mem_nil s)
  | cons b l ih =>
    intro rva fp h0 s hs
    rw [layoutFold_cons] at hs
    rcases List.mem_cons.mp hs with rfl | hs'
    · exact h0
    · refine ih _ _ ?_ s hs'
      by_cases hb : b = Bucket.bss
      · rw [if_pos hb, Nat.add_zero]
        exact h0
      · rw [if_neg hb, Nat.add_mod, h0, alignUp_mod_file (bucketVSize elf b)]
        simp

theorem layoutFold_pairwise (elf : ElfImage) :
    ∀ (l : List Bucket) (rva fp : Nat),
      (layoutFold elf l rva fp).Pairwise
        (fun a b => a.rva + alignUp a.vsize SECTION_ALIGN ≤ b.rva) := by
  intro l
  induction l with
  | nil => intro rva fp; exact List.Pairwise.nil
  | cons b l ih =>
    intro rva fp
    rw [layoutFold_cons]
    refine List.pairwise_cons.mpr ⟨?_, ih _ _⟩
    intro s hs
    exact layoutFold_rva_lb elf l _ _ s hs

theorem layoutFold_vsize_pos (elf : ElfImage) :
    ∀ (l : List Bucket) (rva fp : Nat),
      (∀ b ∈ l, 0 < bucketVSize elf b) →
      ∀ s ∈ layoutFold elf l rva fp, 0 < s.vsize := by
  intro l
  induction l with
  | nil => intro rva fp _ s hs; exact absurd hs (List.not_mem_nil s)
  | cons b l ih =>
    intro rva fp hpos s hs
    rw [layoutFold_cons] at hs
    rcases List.mem_cons.mp hs with rfl | hs'
    · exact hpos b (List.mem_cons_self b l)
    · exact ih _ _ (fun c hc => hpos c (List.mem_cons_of_mem b hc)) s hs'

theorem rvaEnd_lb (elf : ElfImage) :
    ∀ (l : List Bucket) (rva : Nat), rva ≤ rvaEnd elf l rva := by
  intro l
  induction l with
  | nil => intro rva; exact Nat.le_refl _
  | cons b l ih =>
    intro rva
    show rva ≤ rvaEnd elf l (rva + alignUp (bucketVSize elf b) SECTION_ALIGN)
    exact Nat.le_trans (Nat.le_add_right _ _) (ih _)

theorem layoutFold_sum (elf : ElfImage) :
    ∀ (l : List Bucket) (rva fp : Nat),
      ((layoutFold elf l rva fp).map
        (fun s => alignUp s.vsize SECTION_ALIGN)).sum
      = rvaEnd elf l rva - rva := by
  intro l
  induction l with
  | nil => intro rva fp; simp [layoutFold, rvaEnd]
  | cons b l ih =>
    intro rva fp
    rw [layoutFold_cons, List.map_cons, List.sum_cons]
    rw [ih (rva + alignUp (bucketVSize elf b) SECTION_ALIGN)]
    have h1 := rvaEnd_lb elf l (rva + alignUp (bucketVSize elf b) SECTION_ALIGN)
    show alignUp (bucketVSize elf b) SECTION_ALIGN + _ =
      rvaEnd elf l (rva + alignUp (bucketVSize elf b) SECTION_ALIGN) - rva
    omega

theorem layoutFold_length (elf : ElfImage) :
    ∀ (l : List Bucket) (rva fp : Nat),
      (layoutFold elf l rva fp).length = l.length := by
  intro l
  induction l with
  | nil => intro rva fp; rfl
  | cons b l ih =>
    intro rva fp
    rw [layoutFold_cons, List.length_cons, ih, List.length_cons]

/-- C5: in every planned layout, section RVAs are strictly increasing
and non-overlapping, every RVA is section-aligned and every file pointer
file-aligned, the sum of aligned section sizes equals the declared image
size, and the emitted section count equals the number of non-empty
layout buckets, of which there are at most four. -/
theorem c5_layout_invariants (elf : ElfImage) :
    ((plan elf).sections.Pairwise (fun a b =>
        a.rva < b.rva ∧ a.rva + alignUp a.vsize SECTION_ALIGN ≤ b.rva))
    ∧ (∀ s ∈ (plan elf).sections,
        s.rva % SECTION_ALIGN = 0 ∧ s.fileptr % FILE_ALIGN = 0)
    ∧ (((plan elf).sections.map (fun s => alignUp s.vsize SECTION_ALIGN)).sum
        = (plan elf).imageSize)
    ∧ ((plan elf).sections.length
        = (allBuckets.filter (fun b => 0 < bucketVSize elf b)).length)
    ∧ (plan elf).sections.length ≤ 4 := by
  have hsec : (plan elf).sections = layoutFold elf (nonEmptyBuckets elf)
      (alignUp SIZE_OF_HEADERS SECTION_ALIGN)
      (alignUp SIZE_OF_HEADERS FILE_ALIGN) := rfl
  refine ⟨?_, ?_, ?_, ?_, ?_⟩
  · rw [hsec]
    have hpw := layoutFold_pairwise elf (nonEmptyBuckets elf)
      (alignUp SIZE_OF_HEADERS SECTION_ALIGN)
      (alignUp SIZE_OF_HEADERS FILE_ALIGN)
    have hpos := layoutFold_vsize_pos elf (nonEmptyBuckets elf)
      (alignUp SIZE_OF_HEADERS SECTION_ALIGN)
      (alignUp SIZE_OF_HEADERS FILE_ALIGN)
      (fun b hb => by simpa using (List.mem_filter.mp hb).2)
    refine List.Pairwise.imp_of_mem (fun {a c} ha hc hac => ?_) hpw
    have hva := hpos a ha
    have h1 := le_alignUp_section a.vsize
    exact ⟨by omega, hac⟩
  · intro s hs
    rw [hsec] at hs
    constructor
    · exact layoutFold_rva_aligned elf (nonEmptyBuckets elf) _ _
        (alignUp_mod_section SIZE_OF_HEADERS) s hs
    · exact layoutFold_fp_aligned elf (nonEmptyBuckets elf) _ _
        (alignUp_mod_file SIZE_OF_HEADERS) s hs
  · rw [hsec, layoutFold_sum]
    rfl
  · rw [hsec, layoutFold_length]
    rfl
  · rw [hsec, layoutFold_length]
    exact Nat.le_trans (List.length_filter_le _ _) (by rfl)

end Elf2Efi
